import Mathlib

/-!
A shallow embedding of the zkrag retrieval engine (files
`zkrag/vector_store.py`, `zkrag/documents.py`, `zkrag/proof.py`,
`zkrag/rag.py`) together with theorems settling the frozen claims about it.

Modelling conventions:
* Python strings are `List Char`; slicing `s[a:b]` is `(s.drop a).take (b - a)`.
* Python dicts are insertion-ordered association lists (`dictInsert` below),
  matching CPython semantics: overwriting keeps the key's original position,
  a fresh key is appended.
* `hashlib.sha256(...).hexdigest()` is an external library routine; every
  operation takes it as an explicit function parameter `sha256hex`.  The
  claims proved here depend only on it being a function (determinism), plus,
  where noted, on the absence of digest-prefix collisions among the concrete
  inputs — which is exactly what the spec assumes of SHA-256.
* The embedding model and the Rust proof backend are the spec's external
  black boxes; they appear as function-valued fields of the corresponding
  structures.
* numpy float vectors are idealised as `List ℚ`.  The float cosine routine
  `VectorStore._cosine_similarity` (it divides by `np.linalg.norm + 1e-8`,
  an irrational square root) maps each stored vector to one score; all the
  claims about `search` concern only the ordering/selection layer above
  those scores, so the per-vector similarity is a function parameter `sim`
  and the theorems quantify over it — they hold for the float cosine as a
  special case.  What matters for the tie-break claims is preserved exactly:
  identical vectors receive identical scores under any `sim`.
* The while-loop of `DocumentManager._chunk_document` is modelled with
  explicit fuel (`chunkLoop`); `none` means the loop has not finished within
  the given fuel, and `chunkLoop_isSome` below shows fuel
  `content.length + 1` always suffices for the valid configurations
  `overlap < chunk_size` (in particular for the hard-wired defaults 512/50).
-/

namespace ZkRag

/-- Python dict assignment `d[k] = v` on an insertion-ordered association
list: if the key is present its value is overwritten in place (keeping the
key's original position), otherwise the binding is appended at the end. -/
def dictInsert {K V : Type} [DecidableEq K] (k : K) (v : V) :
    List (K × V) → List (K × V)
  | [] => [(k, v)]
  | (k', v') :: rest =>
    if k = k' then (k, v) :: rest else (k', v') :: dictInsert k v rest

/-- Python dict lookup `d.get(k)`. -/
def dictFind {K V : Type} [DecidableEq K] (k : K) :
    List (K × V) → Option V
  | [] => none
  | (k', v') :: rest => if k = k' then some v' else dictFind k rest

/-- Python list slice `a[-k:]` for a nonnegative `k`.  For `k = 0` the start
index `-0` is just `0`, so the slice is the whole list; for `k ≥ 1` it is the
last `min k (length a)` elements. -/
def sliceLast {α : Type} (a : List α) (k : Nat) : List α :=
  if k = 0 then a else a.drop (a.length - k)

/-- Model of `np.argsort(xs)` (vector_store.py line 45): the indices
`0 .. n-1` reordered so that the values `xs[i]` come out ascending.  Ties
keep the lower index first: numpy's argsort is deterministic, and on the
small arrays at issue in the concrete statements below its sort is a stable
insertion sort, which `List.insertionSort` over a reflexive total comparison
reproduces exactly. -/
def argsort (xs : List ℚ) : List Nat :=
  List.insertionSort (fun i j => xs.getD i 0 ≤ xs.getD j 0) (List.range xs.length)

/-- The in-memory vector store of `vector_store.py`: a list of embedding
vectors and the list of chunk payloads they belong to, kept positionally
aligned by `add_embeddings`. -/
structure VectorStore (α : Type) where
  embeddings : List (List ℚ)
  chunks : List α
deriving DecidableEq

/-- Fresh store from `VectorStore.__init__`. -/
def VectorStore.empty {α : Type} : VectorStore α := ⟨[], []⟩

/-- `VectorStore.add_embeddings` (vector_store.py lines 19-25): raises
`ValueError` when the two lengths differ, otherwise assigns both fields,
replacing the previous contents wholesale.  The raise happens before any
assignment, so on error the store is left as it was — modelled by returning
`Except.error` and never producing a modified store. -/
def VectorStore.add_embeddings {α : Type} (s : VectorStore α)
    (embeddings : List (List ℚ)) (chunks : List α) :
    Except String (VectorStore α) :=
  if embeddings.length ≠ chunks.length then
    .error "Embeddings and chunks must have same length"
  else
    .ok ⟨embeddings, chunks⟩

/-- The similarity array `self._cosine_similarity(query_embedding,
self.embeddings)` (vector_store.py lines 50-61): one rational score per
stored vector, computed by the per-vector similarity function `sim`.  See
the module docstring for why `sim` is a parameter. -/
def similarityScores (sim : List ℚ → List ℚ → ℚ) (query : List ℚ)
    (embeddings : List (List ℚ)) : List ℚ :=
  embeddings.map (sim query)

/-- The index-selection layer of `VectorStore.search` (vector_store.py line
45): `np.argsort(similarities)[-top_k:][::-1]`. -/
def VectorStore.topIndices {α : Type} (s : VectorStore α)
    (sim : List ℚ → List ℚ → ℚ) (query : List ℚ) (top_k : Nat) : List Nat :=
  (sliceLast (argsort (similarityScores sim query s.embeddings)) top_k).reverse

/-- `VectorStore.search` (vector_store.py lines 27-48): empty result on an
empty index, otherwise the chunks at the selected indices, most similar
first.  `self.chunks[i]` is `getD i default`; every index produced by
`topIndices` is below `embeddings.length`, and the two lists have equal
length in any store built by `add_embeddings`, so the default is never
consulted there. -/
def VectorStore.search {α : Type} [Inhabited α] (s : VectorStore α)
    (sim : List ℚ → List ℚ → ℚ) (query : List ℚ) (top_k : Nat) : List α :=
  if s.embeddings.length = 0 then []
  else (s.topIndices sim query top_k).map (fun i => s.chunks.getD i default)

/-- `Document` (documents.py lines 13-19). -/
structure Document where
  id : List Char
  content : List Char
  metadata : List (List Char × List Char)
  hash : List Char
deriving DecidableEq, Inhabited

/-- `DocumentChunk` (documents.py lines 22-29). -/
structure DocumentChunk where
  doc_id : List Char
  chunk_id : Nat
  content : List Char
  start_idx : Nat
  end_idx : Nat
deriving DecidableEq, Inhabited

/-- The while-loop of `DocumentManager._chunk_document` (documents.py lines
86-101), with explicit fuel: `none` means the loop has not terminated within
`fuel` iterations.  Each iteration emits the window
`[start, min (start + chunk_size) (length content))` and then moves `start`
to `end - overlap` when the window stopped short of the end of the content,
or to `end` (ending the loop) otherwise. -/
def chunkLoop (doc_id : List Char) (content : List Char)
    (chunk_size overlap : Nat) :
    Nat → Nat → Nat → Option (List DocumentChunk)
  | 0, _, _ => none
  | fuel + 1, start, chunk_id =>
    if start < content.length then
      let e := min (start + chunk_size) content.length
      let c : DocumentChunk :=
        ⟨doc_id, chunk_id, (content.drop start).take (e - start), start, e⟩
      match chunkLoop doc_id content chunk_size overlap fuel
          (if e < content.length then e - overlap else e) (chunk_id + 1) with
      | some rest => some (c :: rest)
      | none => none
    else
      some []

/-- `DocumentManager._chunk_document` run on a document, with fuel
`content.length + 1` (shown sufficient whenever `overlap < chunk_size` by
`chunkLoop_isSome`). -/
def chunk_document (doc : Document) (chunk_size overlap : Nat) :
    Option (List DocumentChunk) :=
  chunkLoop doc.id doc.content chunk_size overlap (doc.content.length + 1) 0 0

/-- `DocumentManager` state (documents.py lines 38-42): the two
insertion-ordered dicts `documents` and `chunks`, both keyed by `doc_id`. -/
structure DocumentManager where
  documents : List (List Char × Document)
  chunks : List (List Char × List DocumentChunk)
deriving DecidableEq

/-- Fresh manager from `DocumentManager.__init__`. -/
def DocumentManager.empty : DocumentManager := ⟨[], []⟩

/-- `DocumentManager.add_document` (documents.py lines 44-66) with the
hard-wired chunking defaults `chunk_size = 512`, `overlap = 50`:
`doc_hash = sha256hex(content)`, `doc_id = doc_hash[:16]`, store the document
under `doc_id`, chunk it, store the chunks under `doc_id`, return `doc_id`
together with the updated manager. -/
def DocumentManager.add_document (sha256hex : List Char → List Char)
    (m : DocumentManager) (content : List Char)
    (metadata : List (List Char × List Char)) :
    List Char × DocumentManager :=
  let doc_hash := sha256hex content
  let doc_id := doc_hash.take 16
  let doc : Document := ⟨doc_id, content, metadata, doc_hash⟩
  let documents' := dictInsert doc_id doc m.documents
  let doc_chunks := (chunk_document doc 512 50).getD []
  let chunks' := dictInsert doc_id doc_chunks m.chunks
  (doc_id, ⟨documents', chunks'⟩)

/-- `DocumentManager.get_document` (documents.py lines 105-107). -/
def DocumentManager.get_document (m : DocumentManager)
    (doc_id : List Char) : Option Document :=
  dictFind doc_id m.documents

/-- `DocumentManager.get_chunks` (documents.py lines 109-111). -/
def DocumentManager.get_chunks (m : DocumentManager)
    (doc_id : List Char) : List DocumentChunk :=
  (dictFind doc_id m.chunks).getD []

/-- `DocumentManager.get_all_chunks` (documents.py lines 113-118):
concatenation of the per-document chunk lists in dict iteration order. -/
def DocumentManager.get_all_chunks (m : DocumentManager) :
    List DocumentChunk :=
  (m.chunks.map Prod.snd).flatten

/-- `DocumentManager.generate_commitment` (documents.py lines 120-132):
collect every stored document's hash, sort the hashes (Python sorts the hex
strings lexicographically by code point, which is exactly the `≤` of
`List Char`), concatenate, and hash the concatenation. -/
def DocumentManager.generate_commitment (sha256hex : List Char → List Char)
    (m : DocumentManager) : List Char :=
  let doc_hashes :=
    List.insertionSort (fun a b => a ≤ b)
      (m.documents.map (fun kv => kv.2.hash))
  sha256hex doc_hashes.flatten

/-- `DocumentManager.__len__` (documents.py lines 148-149). -/
def DocumentManager.size (m : DocumentManager) : Nat :=
  m.documents.length

/-- The external embedding backend (`embeddings.py`), an opaque collaborator:
a model name plus deterministic text-to-vector functions. -/
structure EmbeddingGenerator where
  model_name : List Char
  embed_text : List Char → List ℚ
  embed_batch : List (List Char) → List (List ℚ)

/-- `EmbeddingGenerator.get_model_hash` (embeddings.py lines 49-56): the
SHA-256 of the model name. -/
def EmbeddingGenerator.get_model_hash (sha256hex : List Char → List Char)
    (g : EmbeddingGenerator) : List Char :=
  sha256hex g.model_name

/-- `ProofGenerator` (proof.py): whether the Rust bindings imported, and the
opaque Rust entry point used when they did. -/
structure ProofGenerator where
  rust_available : Bool
  rust_generate : List (List Char) → List Char → List ℚ → List Nat →
    List Char → List Char → Int → Except String (List Char)

/-- `ProofGenerator.generate_proof` (proof.py lines 25-70): with the Rust
bindings absent it returns the placeholder proof `"0" * 256` — a string of
256 zero characters — and never raises; with them present it defers to the
backend (re-raising its failures as `RuntimeError`). -/
def ProofGenerator.generate_proof (pg : ProofGenerator)
    (document_hashes : List (List Char)) (query_text : List Char)
    (query_embedding : List ℚ) (search_results : List Nat)
    (document_commitment : List Char) (model_hash : List Char)
    (timestamp : Int) : Except String (List Char) :=
  if pg.rust_available = false then
    .ok (List.replicate 256 '0')
  else
    pg.rust_generate document_hashes query_text query_embedding
      search_results document_commitment model_hash timestamp

/-- `RAGResponse` (rag.py lines 17-24).  `time.time()` floats are idealised
as rationals. -/
structure RAGResponse where
  answer : List Char
  sources : List DocumentChunk
  query : List Char
  proof : Option (List Char)
  timestamp : ℚ
deriving DecidableEq

/-- `PrivateRAG` state (rag.py lines 38-57): the document manager, the
embedding backend, the vector store and the proof generator. -/
structure PrivateRAG where
  doc_manager : DocumentManager
  embedding_gen : EmbeddingGenerator
  vector_store : VectorStore DocumentChunk
  proof_gen : ProofGenerator

/-- `PrivateRAG._index_documents` (rag.py lines 81-98): if there are no
chunks, return at once leaving the store untouched; otherwise embed every
chunk's text in one batch call and hand the batch to
`VectorStore.add_embeddings`, which replaces the store contents. -/
def PrivateRAG.index_documents (st : PrivateRAG) :
    Except String PrivateRAG :=
  let all_chunks := st.doc_manager.get_all_chunks
  if all_chunks = [] then .ok st
  else
    let texts := all_chunks.map (fun c => c.content)
    let embeddings := st.embedding_gen.embed_batch texts
    match st.vector_store.add_embeddings embeddings all_chunks with
    | .ok vs => .ok ⟨st.doc_manager, st.embedding_gen, vs, st.proof_gen⟩
    | .error e => .error e

/-- `PrivateRAG.add_document` (rag.py lines 75-79): add the document to the
manager, then immediately re-embed and re-index the whole collection via
`_index_documents`; return the new document's id. -/
def PrivateRAG.add_document (sha256hex : List Char → List Char)
    (st : PrivateRAG) (content : List Char)
    (metadata : List (List Char × List Char)) :
    Except String (List Char × PrivateRAG) :=
  let r := st.doc_manager.add_document sha256hex content metadata
  match PrivateRAG.index_documents
      ⟨r.2, st.embedding_gen, st.vector_store, st.proof_gen⟩ with
  | .ok st' => .ok (r.1, st')
  | .error e => .error e

/-- `PrivateRAG._generate_answer` (rag.py lines 146-162): the placeholder
answer, a numbered concatenation of the retrieved chunk texts truncated to
500 characters. -/
def generate_answer (question : List Char)
    (chunks : List DocumentChunk) : List Char :=
  if chunks = [] then "No relevant information found.".data
  else
    let context := List.intercalate "\n\n".data
      (chunks.enum.map (fun p =>
        ('[' :: (Nat.repr (p.1 + 1)).data) ++ (']' :: ' ' :: p.2.content)))
    ("Based on ".data ++ (Nat.repr chunks.length).data ++
      " relevant passages:\n\n".data) ++ (context.take 500 ++ "...".data)

/-- The list comprehension `[self.doc_manager.get_document(doc_id).hash for
doc_id in doc_ids]` (rag.py lines 175-178): `none` models the
`AttributeError` Python raises when some id resolves to `None`. -/
def lookupHashes (m : DocumentManager) :
    List (List Char) → Option (List (List Char))
  | [] => some []
  | i :: rest =>
    match m.get_document i, lookupHashes m rest with
    | some d, some hs => some (d.hash :: hs)
    | _, _ => none

/-- `PrivateRAG._generate_query_proof` (rag.py lines 164-197): deduplicate
the result chunks' document ids (`list(set(...))`, modelled as `dedup`; its
iteration order is irrelevant to the claims below), resolve each to its
document hash, and call the proof generator with the commitment, the model
hash and the truncated timestamp (`int(t)`, the floor for the nonnegative
timestamps at issue). -/
def PrivateRAG.generate_query_proof (sha256hex : List Char → List Char)
    (st : PrivateRAG) (query : List Char) (query_embedding : List ℚ)
    (results : List DocumentChunk) (timestamp : ℚ) :
    Except String (List Char) :=
  let doc_ids := (results.map (fun c => c.doc_id)).dedup
  match lookupHashes st.doc_manager doc_ids with
  | none => .error "AttributeError"
  | some document_hashes =>
    let document_commitment := st.doc_manager.generate_commitment sha256hex
    let model_hash := st.embedding_gen.get_model_hash sha256hex
    st.proof_gen.generate_proof document_hashes query query_embedding
      (results.map (fun c => c.chunk_id)) document_commitment model_hash
      ⌊timestamp⌋

/-- `PrivateRAG.query` (rag.py lines 100-144): embed the question, search
the store, synthesise the placeholder answer and, when asked, attach a
proof.  The per-vector similarity `sim` and the wall-clock `timestamp` are
the run's external inputs. -/
def PrivateRAG.query (sha256hex : List Char → List Char)
    (st : PrivateRAG) (sim : List ℚ → List ℚ → ℚ) (question : List Char)
    (top_k : Nat) (generate_proof : Bool) (timestamp : ℚ) :
    Except String RAGResponse :=
  let query_embedding := st.embedding_gen.embed_text question
  let results := st.vector_store.search sim query_embedding top_k
  let answer := generate_answer question results
  if generate_proof then
    match PrivateRAG.generate_query_proof sha256hex st question
        query_embedding results timestamp with
    | .ok p => .ok ⟨answer, results, question, some p, timestamp⟩
    | .error e => .error e
  else
    .ok ⟨answer, results, question, none, timestamp⟩

/-- Loading a sequence of document contents into a manager in the given
order: iterated `add_document` (with empty metadata), the way
`load_documents`/`add_document` feed the store one document at a time. -/
def buildManager (sha256hex : List Char → List Char) (m : DocumentManager)
    (contents : List (List Char)) : DocumentManager :=
  contents.foldl (fun acc c => (acc.add_document sha256hex c []).2) m

/-- A concrete per-vector similarity used to instantiate the `sim`
parameter in concrete statements: the first coordinate of the stored
vector.  The claims about `search` proved below hold for every `sim`; what
the concrete statements need from the float cosine is only what every
function provides — identical vectors receive identical scores. -/
def headSim (q v : List ℚ) : ℚ :=
  v.headD 0

/-- A concrete instantiation of the `sha256hex` parameter for concrete
statements (the identity on character lists).  The theorems it feeds
quantify over the hash function, so any function exhibits the behaviour;
determinism and prefix-distinctness on the tiny inputs used is all that is
consumed. -/
def sampleHash : List Char → List Char := fun c => c

/-- A concrete embedding backend for concrete statements: every text maps
to the vector `[1]`. -/
def sampleEmbedBatch : List (List Char) → List (List ℚ) :=
  fun ts => ts.map (fun _ => [1])

/-- A concrete `EmbeddingGenerator` for concrete statements. -/
def sampleGen : EmbeddingGenerator :=
  ⟨['m'], fun _ => [1], sampleEmbedBatch⟩

/-- A `ProofGenerator` whose Rust bindings failed to import — the
configuration Claim C8 is about. -/
def noRust : ProofGenerator :=
  ⟨false, fun _ _ _ _ _ _ _ => .error "unavailable"⟩

/-- A freshly constructed pipeline: empty manager, empty store, no Rust
proof backend. -/
def emptyRAG : PrivateRAG :=
  ⟨DocumentManager.empty, sampleGen, VectorStore.empty, noRust⟩

/-- The manager holding the single document `"ab"` (added with
`sampleHash`). -/
def mgrAB : DocumentManager :=
  (DocumentManager.empty.add_document sampleHash ['a', 'b'] []).2

/-- A pipeline whose store indexes exactly the chunks of `mgrAB`, used to
instantiate the C8 theorem. -/
def ragAB : PrivateRAG :=
  ⟨mgrAB, sampleGen, ⟨[[1]], mgrAB.get_all_chunks⟩, noRust⟩

/-- A concrete six-character document for the chunking witnesses. -/
def docSample : Document :=
  ⟨['d'], ['a', 'b', 'c', 'd', 'e', 'f'], [], ['d']⟩

/-- The chunks of `docSample` under `chunk_size = 3`, `overlap = 1`. -/
def chunksSample : List DocumentChunk :=
  [⟨['d'], 0, ['a', 'b', 'c'], 0, 3⟩,
   ⟨['d'], 1, ['c', 'd', 'e'], 2, 5⟩,
   ⟨['d'], 2, ['e', 'f'], 4, 6⟩]

/-- The spec's "concatenating chunk text with overlaps removed", applied to
every chunk after the first: each of those repeats the previous chunk's
last `overlap` characters, so its first `overlap` characters are dropped
before concatenation. -/
def tailConcat (overlap : Nat) (cs : List DocumentChunk) : List Char :=
  (cs.map (fun c => c.content.drop overlap)).flatten

/-- Reassembly of a chunk sequence: the first chunk whole, every later
chunk with its leading `overlap` characters removed (see `tailConcat`). -/
def reconstruct (overlap : Nat) : List DocumentChunk → List Char
  | [] => []
  | c :: rest => c.content ++ tailConcat overlap rest

end ZkRag

namespace ZkRag

/-! Helper lemmas shared by the claim theorems. -/

/-- Overwriting a key that `dictInsert` just wrote does not change the
number of bindings. -/
lemma dictInsert_overwrite_length {K V : Type} [DecidableEq K]
    (k : K) (v v' : V) (d : List (K × V)) :
    (dictInsert k v' (dictInsert k v d)).length = (dictInsert k v d).length := by
  induction d with
  | nil => simp [dictInsert]
  | cons kv rest ih =>
    by_cases h : k = kv.1
    · simp [dictInsert, h]
    · simp only [dictInsert, h, if_false, if_neg h, List.length_cons, ih]

/-- Claim C9: adding content that the store already contains yields the
same `doc_id` — the 16-character prefix of the content hash, a function of
the content alone — and leaves the document count unchanged, because the
second `add_document` overwrites the same dict key. -/
theorem add_document_idempotent (sha256hex : List Char → List Char)
    (m : DocumentManager) (content : List Char)
    (meta1 meta2 : List (List Char × List Char)) :
    ((m.add_document sha256hex content meta1).2.add_document
        sha256hex content meta2).1
      = (m.add_document sha256hex content meta1).1
    ∧ (m.add_document sha256hex content meta1).1 = (sha256hex content).take 16
    ∧ ((m.add_document sha256hex content meta1).2.add_document
        sha256hex content meta2).2.size
      = (m.add_document sha256hex content meta1).2.size := by
  refine ⟨rfl, rfl, ?_⟩
  simp [DocumentManager.add_document, DocumentManager.size,
    dictInsert_overwrite_length]

/-- Claim C7 counterexample: `add_embeddings` performs no dimension check —
two embedding vectors of different lengths (1 and 2) with a matching chunk
count are accepted and installed, where the claim says the call fails with
`DimensionMismatch`. -/
theorem add_embeddings_accepts_heterogeneous_dims :
    VectorStore.add_embeddings (VectorStore.empty : VectorStore Nat)
      [[1], [1, 2]] [10, 20] = .ok ⟨[[1], [1, 2]], [10, 20]⟩ := by
  rfl

/-- Claim C7 (amended): `add_embeddings` fails exactly when the embedding
count differs from the chunk count (the `ValueError` raised on line 22 of
vector_store.py, before any assignment, so the store is unchanged); on
success it replaces the store contents wholesale with its arguments.  No
dimension check is performed. -/
theorem add_embeddings_arity_check {α : Type} (s : VectorStore α)
    (embeddings : List (List ℚ)) (chunks : List α) :
    (embeddings.length ≠ chunks.length →
      s.add_embeddings embeddings chunks =
        .error "Embeddings and chunks must have same length")
    ∧ (embeddings.length = chunks.length →
      s.add_embeddings embeddings chunks = .ok ⟨embeddings, chunks⟩) := by
  constructor <;> intro h <;> simp [VectorStore.add_embeddings, h]

/-- Witness for `add_embeddings_arity_check` at concrete inputs: one
embedding with no chunk errors out; one embedding with one chunk replaces
the (empty) contents. -/
theorem add_embeddings_arity_check_witness :
    VectorStore.add_embeddings (VectorStore.empty : VectorStore Nat) [[1]] []
        = .error "Embeddings and chunks must have same length"
    ∧ VectorStore.add_embeddings (VectorStore.empty : VectorStore Nat)
        [[1]] [10] = .ok ⟨[[1]], [10]⟩ :=
  ⟨(add_embeddings_arity_check _ _ _).1 (by decide),
   (add_embeddings_arity_check _ _ _).2 (by decide)⟩

/-- Claim C4 (the code at the failing input): with `overlap = chunk_size =
2` and the three-character content `"abc"`, the chunking loop never raises
a configuration error and never terminates — `start` returns to `0` every
iteration, so no amount of fuel produces a result.  The code contains no
`InvalidConfig`/`ConfigError` check at all. -/
theorem chunk_overlap_ge_size_no_error_no_result :
    ∀ fuel chunk_id,
      chunkLoop ['d'] ['a', 'b', 'c'] 2 2 fuel 0 chunk_id = none := by
  intro fuel
  induction fuel with
  | zero => intro _; rfl
  | succ n ih =>
    intro cid
    simp only [chunkLoop, List.length_cons, List.length_nil]
    norm_num
    rw [ih (cid + 1)]

/-- Claim C3 (the code at the failing input): on an index of size 2,
`search` with `top_k = 0` returns both chunks (most similar first) instead
of the empty sequence — the Python slice `[-0:]` is the whole array. -/
theorem search_topk_zero_returns_all :
    VectorStore.search (⟨[[1], [2]], [10, 20]⟩ : VectorStore Nat)
      headSim [1] 0 = [20, 10] := by
  decide

/-- Splitting `tailConcat` at the head of the chunk list. -/
lemma tailConcat_cons (overlap : Nat) (c : DocumentChunk)
    (rest : List DocumentChunk) :
    tailConcat overlap (c :: rest) =
      c.content.drop overlap ++ tailConcat overlap rest := by
  simp [tailConcat]

/-- The chunk loop entered at or past the end of the content returns the
empty chunk list whenever it returns at all. -/
lemma chunkLoop_at_end {doc_id content : List Char} {chunk_size overlap : Nat}
    {fuel start chunk_id : Nat} {l : List DocumentChunk}
    (hs : ¬ start < content.length)
    (h : chunkLoop doc_id content chunk_size overlap fuel start chunk_id
      = some l) :
    l = [] := by
  cases fuel with
  | zero => simp [chunkLoop] at h
  | succ n =>
    simp only [chunkLoop, if_neg hs, Option.some.injEq] at h
    exact h.symm

/-- One unfolding of the chunk loop at a position strictly inside the
content: the head chunk is the window starting at `start`, and the tail is
the loop run from the advanced position. -/
lemma chunkLoop_cons {doc_id content : List Char} {chunk_size overlap : Nat}
    {fuel start chunk_id : Nat} {l : List DocumentChunk}
    (hs : start < content.length)
    (h : chunkLoop doc_id content chunk_size overlap (fuel + 1) start chunk_id
      = some l) :
    ∃ rest,
      chunkLoop doc_id content chunk_size overlap fuel
          (if min (start + chunk_size) content.length < content.length
           then min (start + chunk_size) content.length - overlap
           else min (start + chunk_size) content.length) (chunk_id + 1)
        = some rest
      ∧ l = ⟨doc_id, chunk_id,
          (content.drop start).take
            (min (start + chunk_size) content.length - start),
          start, min (start + chunk_size) content.length⟩ :: rest := by
  simp only [chunkLoop, if_pos hs] at h
  cases hcl : chunkLoop doc_id content chunk_size overlap fuel
      (if min (start + chunk_size) content.length < content.length
       then min (start + chunk_size) content.length - overlap
       else min (start + chunk_size) content.length) (chunk_id + 1) with
  | none => rw [hcl] at h; simp at h
  | some rest =>
    rw [hcl] at h
    simp only [Option.some.injEq] at h
    exact ⟨rest, rfl, h.symm⟩

/-- Fuel `content.length - start + 1` runs the chunk loop to completion
whenever `overlap < chunk_size`: every iteration strictly advances
`start`. -/
lemma chunkLoop_isSome (doc_id content : List Char)
    (chunk_size overlap : Nat) (hov : overlap < chunk_size) :
    ∀ fuel start chunk_id, content.length - start < fuel →
      (chunkLoop doc_id content chunk_size overlap fuel start chunk_id).isSome := by
  intro fuel
  induction fuel with
  | zero => intro start cid h; omega
  | succ n ih =>
    intro start cid h
    by_cases hs : start < content.length
    · simp only [chunkLoop, if_pos hs]
      have hrec := ih (if min (start + chunk_size) content.length < content.length
          then min (start + chunk_size) content.length - overlap
          else min (start + chunk_size) content.length) (cid + 1)
          (by split <;> omega)
      obtain ⟨rest, hrest⟩ := Option.isSome_iff_exists.mp hrec
      rw [hrest]
      rfl
    · simp [chunkLoop, hs]

/-- Every chunk the loop emits starts at or after the position at which the
loop was entered, provided the overlap does not exceed the window size. -/
lemma chunkLoop_start_le {doc_id content : List Char}
    {chunk_size overlap : Nat} (hov : overlap ≤ chunk_size) :
    ∀ (fuel start chunk_id : Nat) (l : List DocumentChunk),
      chunkLoop doc_id content chunk_size overlap fuel start chunk_id = some l →
      ∀ c ∈ l, start ≤ c.start_idx := by
  intro fuel
  induction fuel with
  | zero => intro start cid l h; simp [chunkLoop] at h
  | succ n ih =>
    intro start cid l h
    by_cases hs : start < content.length
    · obtain ⟨rest, hrest, rfl⟩ := chunkLoop_cons hs h
      intro c hc
      rcases List.mem_cons.mp hc with rfl | hc'
      · exact le_rfl
      · by_cases he : min (start + chunk_size) content.length < content.length
        · rw [if_pos he] at hrest
          have h2 := ih _ _ _ hrest c hc'
          omega
        · rw [if_neg he] at hrest
          have h2 := ih _ _ _ hrest c hc'
          omega
    · have h0 := chunkLoop_at_end hs h
      subst h0
      intro c hc
      simp at hc

/-- Successive chunks start at strictly increasing offsets whenever
`overlap < chunk_size`. -/
lemma chunkLoop_chain {doc_id content : List Char} {chunk_size overlap : Nat}
    (hov : overlap < chunk_size) :
    ∀ (fuel start chunk_id : Nat) (l : List DocumentChunk),
      chunkLoop doc_id content chunk_size overlap fuel start chunk_id = some l →
      List.Chain' (fun a b => a.start_idx < b.start_idx) l := by
  intro fuel
  induction fuel with
  | zero => intro start cid l h; simp [chunkLoop] at h
  | succ n ih =>
    intro start cid l h
    by_cases hs : start < content.length
    · obtain ⟨rest, hrest, rfl⟩ := chunkLoop_cons hs h
      rw [List.chain'_cons']
      refine ⟨?_, ih _ _ _ hrest⟩
      intro y hy
      have hym : y ∈ rest := List.mem_of_mem_head? hy
      show start < y.start_idx
      by_cases he : min (start + chunk_size) content.length < content.length
      · rw [if_pos he] at hrest
        have h2 := chunkLoop_start_le hov.le _ _ _ _ hrest y hym
        omega
      · rw [if_neg he] at hrest
        have h2 := chunkLoop_start_le hov.le _ _ _ _ hrest y hym
        omega
    · rw [chunkLoop_at_end hs h]
      exact List.chain'_nil

/-- Every emitted chunk is a nonempty window inside the content. -/
lemma chunkLoop_bounds {doc_id content : List Char} {chunk_size overlap : Nat}
    (hcs : 0 < chunk_size) :
    ∀ (fuel start chunk_id : Nat) (l : List DocumentChunk),
      chunkLoop doc_id content chunk_size overlap fuel start chunk_id = some l →
      ∀ c ∈ l, c.start_idx < c.end_idx ∧ c.end_idx ≤ content.length := by
  intro fuel
  induction fuel with
  | zero => intro start cid l h; simp [chunkLoop] at h
  | succ n ih =>
    intro start cid l h
    by_cases hs : start < content.length
    · obtain ⟨rest, hrest, rfl⟩ := chunkLoop_cons hs h
      intro c hc
      rcases List.mem_cons.mp hc with rfl | hc'
      · constructor
        · show start < min (start + chunk_size) content.length
          omega
        · show min (start + chunk_size) content.length ≤ content.length
          omega
      · exact ih _ _ _ hrest c hc'
    · have h0 := chunkLoop_at_end hs h
      subst h0
      intro c hc
      simp at hc

/-- The chunks after the entry position reassemble, once each is stripped
of its leading `overlap` characters, into exactly the content from
`start + overlap` on. -/
lemma chunkLoop_tailConcat {doc_id content : List Char}
    {chunk_size overlap : Nat} (hov : overlap < chunk_size) :
    ∀ (fuel start chunk_id : Nat) (l : List DocumentChunk),
      chunkLoop doc_id content chunk_size overlap fuel start chunk_id = some l →
      tailConcat overlap l = content.drop (start + overlap) := by
  intro fuel
  induction fuel with
  | zero => intro start cid l h; simp [chunkLoop] at h
  | succ n ih =>
    intro start cid l h
    by_cases hs : start < content.length
    · obtain ⟨rest, hrest, rfl⟩ := chunkLoop_cons hs h
      rw [tailConcat_cons]
      by_cases he : min (start + chunk_size) content.length < content.length
      · rw [if_pos he] at hrest
        have hmin : min (start + chunk_size) content.length
            = start + chunk_size := by omega
        have ht := ih _ _ _ hrest
        rw [hmin] at ht
        have harg : start + chunk_size - overlap + overlap
            = start + chunk_size := by omega
        rw [harg] at ht
        rw [ht, hmin]
        have h3 : start + chunk_size - start = chunk_size := by omega
        rw [h3]
        show ((content.drop start).take chunk_size).drop overlap ++ _ = _
        rw [List.drop_take, List.drop_drop]
        conv_rhs => rw [← List.take_append_drop (chunk_size - overlap)
          (content.drop (start + overlap))]
        congr 1
        rw [List.drop_drop]
        congr 1
        omega
      · rw [if_neg he] at hrest
        have hmin : min (start + chunk_size) content.length
            = content.length := by omega
        rw [hmin] at hrest
        have hrest0 : rest = [] := chunkLoop_at_end (by omega) hrest
        subst hrest0
        simp only [tailConcat, List.map_nil, List.flatten_nil, List.append_nil]
        rw [hmin]
        show ((content.drop start).take (content.length - start)).drop overlap = _
        rw [List.take_of_length_le (by simp), List.drop_drop]
    · rw [chunkLoop_at_end hs h]
      simp only [tailConcat, List.map_nil, List.flatten_nil]
      symm
      apply List.drop_eq_nil_of_le
      omega

/-- Any completed chunk loop run reassembles to exactly the content from
the entry position on. -/
lemma chunkLoop_reconstruct {doc_id content : List Char}
    {chunk_size overlap : Nat} (hov : overlap < chunk_size)
    {fuel start chunk_id : Nat} {l : List DocumentChunk}
    (h : chunkLoop doc_id content chunk_size overlap fuel start chunk_id
      = some l) :
    reconstruct overlap l = content.drop start := by
  cases fuel with
  | zero => simp [chunkLoop] at h
  | succ n =>
    by_cases hs : start < content.length
    · obtain ⟨rest, hrest, rfl⟩ := chunkLoop_cons hs h
      show _ ++ tailConcat overlap rest = _
      by_cases he : min (start + chunk_size) content.length < content.length
      · rw [if_pos he] at hrest
        have hmin : min (start + chunk_size) content.length
            = start + chunk_size := by omega
        have ht := chunkLoop_tailConcat hov _ _ _ _ hrest
        rw [hmin] at ht
        have harg : start + chunk_size - overlap + overlap
            = start + chunk_size := by omega
        rw [harg] at ht
        rw [ht, hmin]
        have h3 : start + chunk_size - start = chunk_size := by omega
        rw [h3]
        conv_rhs => rw [← List.take_append_drop chunk_size (content.drop start)]
        congr 1
        rw [List.drop_drop]
      · rw [if_neg he] at hrest
        have hmin : min (start + chunk_size) content.length
            = content.length := by omega
        rw [hmin] at hrest
        have hrest0 : rest = [] := chunkLoop_at_end (by omega) hrest
        subst hrest0
        simp only [tailConcat, List.map_nil, List.flatten_nil, List.append_nil]
        rw [hmin]
        exact List.take_of_length_le (by simp)
    · rw [chunkLoop_at_end hs h]
      show reconstruct overlap [] = _
      rw [reconstruct]
      symm
      apply List.drop_eq_nil_of_le
      omega

/-- Claim C10: for parameters with `0 < overlap < chunk_size` the chunking
loop terminates — fuel `content.length + 1` already produces the final
chunk list — and each iteration strictly advances the start offset, so the
emitted windows have strictly increasing starts. -/
theorem chunk_document_terminates (doc : Document) (chunk_size overlap : Nat)
    (hov0 : 0 < overlap) (hov : overlap < chunk_size) :
    ∃ cs, chunk_document doc chunk_size overlap = some cs
      ∧ List.Chain' (fun a b => a.start_idx < b.start_idx) cs := by
  have h := chunkLoop_isSome doc.id doc.content chunk_size overlap hov
      (doc.content.length + 1) 0 0 (by omega)
  obtain ⟨cs, hcs⟩ := Option.isSome_iff_exists.mp h
  exact ⟨cs, hcs, chunkLoop_chain hov _ _ _ _ hcs⟩

/-- Witness for `chunk_document_terminates`: `docSample` with
`chunk_size = 3`, `overlap = 1` chunks to completion. -/
theorem chunk_document_terminates_witness :
    (chunk_document docSample 3 1).isSome = true := by
  obtain ⟨cs, hcs, _⟩ :=
    chunk_document_terminates docSample 3 1 (by decide) (by decide)
  rw [hcs]
  rfl

/-- Claim C5: for any configuration with `overlap < chunk_size` (the code
always chunks with the defaults 512/50), the emitted chunks cover the
content exactly — the first chunk's text followed by every later chunk's
text with its leading `overlap` characters removed is the content,
character for character — and every chunk satisfies
`start_idx < end_idx ≤ content.length` (indices are `Nat`s, so
`0 ≤ start_idx` holds by type). -/
theorem chunk_coverage (doc : Document) (chunk_size overlap : Nat)
    (hov : overlap < chunk_size) (cs : List DocumentChunk)
    (h : chunk_document doc chunk_size overlap = some cs) :
    reconstruct overlap cs = doc.content
    ∧ ∀ c ∈ cs, c.start_idx < c.end_idx ∧ c.end_idx ≤ doc.content.length := by
  constructor
  · have hr := chunkLoop_reconstruct hov h
    simpa using hr
  · exact chunkLoop_bounds (by omega) _ _ _ _ h

/-- Witness for `chunk_coverage`: the three chunks of `docSample` under
`chunk_size = 3`, `overlap = 1` reassemble to its six-character content. -/
theorem chunk_coverage_witness :
    reconstruct 1 chunksSample = docSample.content :=
  (chunk_coverage docSample 3 1 (by decide) chunksSample (by decide)).1

/-- Inserting a fresh key appends the binding at the end of the dict. -/
lemma dictInsert_fresh {K V : Type} [DecidableEq K] (k : K) (v : V)
    (d : List (K × V)) (h : k ∉ d.map Prod.fst) :
    dictInsert k v d = d ++ [(k, v)] := by
  induction d with
  | nil => rfl
  | cons kv rest ih =>
    simp only [List.map_cons, List.mem_cons] at h
    push_neg at h
    simp [dictInsert, h.1, ih h.2]

/-- Loading contents with pairwise-distinct derived ids, none of which is
already a key of the manager, appends one document entry per content, in
load order. -/
lemma buildManager_documents (sha256hex : List Char → List Char) :
    ∀ (l : List (List Char)) (m : DocumentManager),
      (l.map (fun c => (sha256hex c).take 16)).Nodup →
      (∀ k ∈ l.map (fun c => (sha256hex c).take 16),
        k ∉ m.documents.map Prod.fst) →
      (buildManager sha256hex m l).documents
        = m.documents ++ l.map (fun c =>
            ((sha256hex c).take 16,
             ⟨(sha256hex c).take 16, c, [], sha256hex c⟩)) := by
  intro l
  induction l with
  | nil => intro m _ _; simp [buildManager]
  | cons c rest ih =>
    intro m hnd hfresh
    have hfc : (sha256hex c).take 16 ∉ m.documents.map Prod.fst :=
      hfresh _ (by simp)
    have hstep : ((m.add_document sha256hex c []).2).documents
        = m.documents ++ [((sha256hex c).take 16,
            ⟨(sha256hex c).take 16, c, [], sha256hex c⟩)] := by
      simp only [DocumentManager.add_document]
      exact dictInsert_fresh _ _ _ hfc
    have hnd' : (rest.map (fun x => (sha256hex x).take 16)).Nodup := by
      simp only [List.map_cons, List.nodup_cons] at hnd
      exact hnd.2
    have hhead : (sha256hex c).take 16
        ∉ rest.map (fun x => (sha256hex x).take 16) := by
      simp only [List.map_cons, List.nodup_cons] at hnd
      exact hnd.1
    have hfresh' : ∀ k ∈ rest.map (fun x => (sha256hex x).take 16),
        k ∉ ((m.add_document sha256hex c []).2).documents.map Prod.fst := by
      intro k hk
      rw [hstep]
      simp only [List.map_append, List.mem_append]
      push_neg
      constructor
      · exact hfresh k (by simp [hk])
      · simp only [List.map_cons, List.map_nil, List.mem_singleton]
        intro hcontra
        exact hhead (hcontra ▸ hk)
    have := ih ((m.add_document sha256hex c []).2) hnd' hfresh'
    calc (buildManager sha256hex m (c :: rest)).documents
        = (buildManager sha256hex ((m.add_document sha256hex c []).2) rest).documents := rfl
      _ = ((m.add_document sha256hex c []).2).documents ++ rest.map (fun x =>
            ((sha256hex x).take 16,
             ⟨(sha256hex x).take 16, x, [], sha256hex x⟩)) := this
      _ = m.documents ++ (c :: rest).map (fun x =>
            ((sha256hex x).take 16,
             ⟨(sha256hex x).take 16, x, [], sha256hex x⟩)) := by
          rw [hstep]
          simp

/-- Claim C2: loading the same set of documents in any two orders yields
the identical commitment, because `generate_commitment` sorts the document
hashes before concatenating and re-hashing.  Hypotheses: the two load
sequences are permutations of one another, and the derived 16-character
doc ids are pairwise distinct (no digest-prefix collision — two distinct
documents colliding on a doc id would overwrite each other, which is the
spec's standing SHA-256 assumption, not a property of the sorting). -/
theorem generate_commitment_order_independent
    (sha256hex : List Char → List Char) (l1 l2 : List (List Char))
    (hperm : l1.Perm l2)
    (hids : (l1.map (fun c => (sha256hex c).take 16)).Nodup) :
    (buildManager sha256hex DocumentManager.empty l1).generate_commitment
        sha256hex
      = (buildManager sha256hex DocumentManager.empty l2).generate_commitment
        sha256hex := by
  have hids2 : (l2.map (fun c => (sha256hex c).take 16)).Nodup :=
    (hperm.map _).nodup hids
  have h1 := buildManager_documents sha256hex l1 DocumentManager.empty hids
    (by simp [DocumentManager.empty])
  have h2 := buildManager_documents sha256hex l2 DocumentManager.empty hids2
    (by simp [DocumentManager.empty])
  have e1 : (buildManager sha256hex DocumentManager.empty l1).documents.map
      (fun kv => kv.2.hash) = l1.map sha256hex := by
    rw [h1]
    simp [DocumentManager.empty]
  have e2 : (buildManager sha256hex DocumentManager.empty l2).documents.map
      (fun kv => kv.2.hash) = l2.map sha256hex := by
    rw [h2]
    simp [DocumentManager.empty]
  have hsorteq : List.insertionSort (fun a b => a ≤ b)
      ((buildManager sha256hex DocumentManager.empty l1).documents.map
        (fun kv => kv.2.hash))
      = List.insertionSort (fun a b => a ≤ b)
      ((buildManager sha256hex DocumentManager.empty l2).documents.map
        (fun kv => kv.2.hash)) := by
    rw [e1, e2]
    have hp : (List.insertionSort (fun a b => a ≤ b) (l1.map sha256hex)).Perm
        (List.insertionSort (fun a b => a ≤ b) (l2.map sha256hex)) :=
      (List.perm_insertionSort _ _).trans
        ((hperm.map sha256hex).trans (List.perm_insertionSort _ _).symm)
    exact List.eq_of_perm_of_sorted hp (List.sorted_insertionSort _ _)
      (List.sorted_insertionSort _ _)
  simp only [DocumentManager.generate_commitment]
  rw [hsorteq]

/-- Witness for `generate_commitment_order_independent`: the two-document
set loaded in both orders. -/
theorem generate_commitment_order_independent_witness :
    (buildManager sampleHash DocumentManager.empty
        [['a'], ['b']]).generate_commitment sampleHash
      = (buildManager sampleHash DocumentManager.empty
        [['b'], ['a']]).generate_commitment sampleHash :=
  generate_commitment_order_independent sampleHash [['a'], ['b']]
    [['b'], ['a']] (by decide) (by decide)

/-- Claim C6 counterexample: immediately after `add_document` on a fresh
pipeline the vector store already holds the new chunk and an embedding for
it — the claim as stated says the index does not yet contain embeddings
for newly added chunks until the next explicit reindex. -/
theorem rag_add_document_not_stale :
    (PrivateRAG.add_document sampleHash emptyRAG
        ['h', 'e', 'l', 'l', 'o'] []).map
        (fun p => (p.2.vector_store.embeddings,
          p.2.vector_store.chunks.map (fun c => c.content)))
      = .ok ([[1]], [['h', 'e', 'l', 'l', 'o']]) := by
  rfl

/-- Claim C6 (amended): `add_document` immediately re-embeds and re-indexes
the whole collection as part of the call (rag.py line 78 calls
`_index_documents` unconditionally): provided the embedding backend returns
one vector per text and the updated collection has at least one chunk, the
pipeline after `add_document` holds the vector store rebuilt wholesale from
every chunk of the updated manager — including the new document's chunks.
Re-embedding is whole-collection, never incremental, but it happens inside
`add_document` itself; there is no separate Loaded state awaiting an
explicit reindex. -/
theorem rag_add_document_reindexes (sha256hex : List Char → List Char)
    (st : PrivateRAG) (content : List Char)
    (metadata : List (List Char × List Char))
    (hlen : ∀ ts, (st.embedding_gen.embed_batch ts).length = ts.length)
    (hne : ((st.doc_manager.add_document sha256hex content
      metadata).2).get_all_chunks ≠ []) :
    PrivateRAG.add_document sha256hex st content metadata
      = .ok ((st.doc_manager.add_document sha256hex content metadata).1,
          ⟨(st.doc_manager.add_document sha256hex content metadata).2,
           st.embedding_gen,
           ⟨st.embedding_gen.embed_batch
              ((((st.doc_manager.add_document sha256hex content
                metadata).2).get_all_chunks).map (fun c => c.content)),
            ((st.doc_manager.add_document sha256hex content
              metadata).2).get_all_chunks⟩,
           st.proof_gen⟩) := by
  have harities : (st.embedding_gen.embed_batch
      ((((st.doc_manager.add_document sha256hex content
        metadata).2).get_all_chunks).map (fun c => c.content))).length
      = (((st.doc_manager.add_document sha256hex content
        metadata).2).get_all_chunks).length := by
    rw [hlen, List.length_map]
  simp only [PrivateRAG.add_document, PrivateRAG.index_documents,
    VectorStore.add_embeddings, if_neg hne, harities, ne_eq,
    not_true_eq_false, if_false, ite_false]

/-- Witness for `rag_add_document_reindexes` on the fresh pipeline and the
two-character document `"hi"`. -/
theorem rag_add_document_reindexes_witness :
    PrivateRAG.add_document sampleHash emptyRAG ['h', 'i'] []
      = .ok ((emptyRAG.doc_manager.add_document sampleHash ['h', 'i'] []).1,
          ⟨(emptyRAG.doc_manager.add_document sampleHash ['h', 'i'] []).2,
           emptyRAG.embedding_gen,
           ⟨emptyRAG.embedding_gen.embed_batch
              ((((emptyRAG.doc_manager.add_document sampleHash ['h', 'i']
                []).2).get_all_chunks).map (fun c => c.content)),
            ((emptyRAG.doc_manager.add_document sampleHash ['h', 'i']
              []).2).get_all_chunks⟩,
           emptyRAG.proof_gen⟩) :=
  rag_add_document_reindexes sampleHash emptyRAG ['h', 'i'] []
    (fun ts => by simp [emptyRAG, sampleGen, sampleEmbedBatch])
    (by decide)

/-- Every index selected by `topIndices` is a position into the embedding
list. -/
lemma topIndices_lt {α : Type} (s : VectorStore α)
    (sim : List ℚ → List ℚ → ℚ) (query : List ℚ) (top_k : Nat) :
    ∀ i ∈ s.topIndices sim query top_k, i < s.embeddings.length := by
  intro i hi
  simp only [VectorStore.topIndices, List.mem_reverse] at hi
  have h1 : i ∈ argsort (similarityScores sim query s.embeddings) := by
    by_cases hk : top_k = 0
    · simpa [sliceLast, hk] using hi
    · simp only [sliceLast, hk, if_false, ite_false] at hi
      exact List.mem_of_mem_drop hi
  simp only [argsort] at h1
  have h2 := (List.perm_insertionSort _ _).mem_iff.mp h1
  simpa [similarityScores] using List.mem_range.mp h2

/-- Everything `search` returns is one of the stored chunks, provided the
store's two lists are aligned (as `add_embeddings` guarantees). -/
lemma search_subset {α : Type} [Inhabited α] (s : VectorStore α)
    (hlen : s.embeddings.length = s.chunks.length)
    (sim : List ℚ → List ℚ → ℚ) (query : List ℚ) (top_k : Nat) :
    ∀ x ∈ s.search sim query top_k, x ∈ s.chunks := by
  intro x hx
  unfold VectorStore.search at hx
  split at hx
  · simp at hx
  · obtain ⟨i, hi, rfl⟩ := List.mem_map.mp hx
    have hlt := topIndices_lt s sim query top_k i hi
    rw [List.getD_eq_getElem _ _ (by omega)]
    exact List.getElem_mem _

/-- When every id resolves, the hash-lookup comprehension succeeds. -/
lemma lookupHashes_isSome (m : DocumentManager) :
    ∀ ids : List (List Char),
      (∀ i ∈ ids, (m.get_document i).isSome) →
      (lookupHashes m ids).isSome := by
  intro ids
  induction ids with
  | nil => intro _; rfl
  | cons i rest ih =>
    intro h
    obtain ⟨d, hd⟩ := Option.isSome_iff_exists.mp (h i (by simp))
    obtain ⟨hs, hhs⟩ :=
      Option.isSome_iff_exists.mp (ih (fun j hj => h j (by simp [hj])))
    simp [lookupHashes, hd, hhs]

/-- Claim C8: with the Rust proof backend absent, `query` with
`generate_proof = true` returns a response — it never raises — whose proof
field is the documented zero-filled sentinel, the string of 256 zero
characters.  The hypotheses say the store rows are positionally aligned and
every stored chunk's `doc_id` resolves in the manager, which is how
`_index_documents` populates the store. -/
theorem query_sentinel_proof (sha256hex : List Char → List Char)
    (st : PrivateRAG) (sim : List ℚ → List ℚ → ℚ) (question : List Char)
    (top_k : Nat) (timestamp : ℚ)
    (hrust : st.proof_gen.rust_available = false)
    (hlen : st.vector_store.embeddings.length
      = st.vector_store.chunks.length)
    (hres : ∀ c ∈ st.vector_store.chunks,
      (st.doc_manager.get_document c.doc_id).isSome) :
    (PrivateRAG.query sha256hex st sim question top_k true timestamp).map
        (fun r => r.proof)
      = .ok (some (List.replicate 256 '0')) := by
  have hsub := search_subset st.vector_store hlen sim
    (st.embedding_gen.embed_text question) top_k
  have hids : ∀ i ∈ ((st.vector_store.search sim
      (st.embedding_gen.embed_text question) top_k).map
        (fun c => c.doc_id)).dedup,
      (st.doc_manager.get_document i).isSome := by
    intro i hi
    rw [List.mem_dedup] at hi
    obtain ⟨c, hc, rfl⟩ := List.mem_map.mp hi
    exact hres c (hsub c hc)
  obtain ⟨hs, hhs⟩ := Option.isSome_iff_exists.mp
    (lookupHashes_isSome st.doc_manager _ hids)
  simp only [PrivateRAG.query, PrivateRAG.generate_query_proof, hhs,
    ProofGenerator.generate_proof, hrust, if_true, ite_true, Except.map]

/-- Witness for `query_sentinel_proof` on the one-document pipeline
`ragAB` (Rust backend absent). -/
theorem query_sentinel_proof_witness :
    (PrivateRAG.query sampleHash ragAB headSim ['q'] 3 true 0).map
        (fun r => r.proof)
      = .ok (some (List.replicate 256 '0')) :=
  query_sentinel_proof sampleHash ragAB headSim ['q'] 3 0 rfl
    (by decide) (by decide)

/-- For `i < j < n` the pair `[i, j]` is a sublist of `range n`. -/
lemma pair_sublist_range (i j n : Nat) (hij : i < j) (hjn : j < n) :
    [i, j].Sublist (List.range n) := by
  induction n with
  | zero => omega
  | succ m ih =>
    rw [List.range_succ]
    by_cases hj : j < m
    · exact (ih hj).trans (List.sublist_append_left _ _)
    · have hjm : j = m := by omega
      subst hjm
      exact List.Sublist.append
        (List.singleton_sublist.mpr (List.mem_range.mpr hij))
        (List.Sublist.refl _)

/-- A pair that is a sublist of a duplicate-free list stays a sublist of
any `drop` of that list containing its first component. -/
lemma pair_sublist_drop {α : Type} {a b : α} :
    ∀ (m : Nat) (l : List α), l.Nodup → [a, b].Sublist l →
      a ∈ l.drop m → [a, b].Sublist (l.drop m) := by
  intro m
  induction m with
  | zero => intro l _ hsub _; simpa using hsub
  | succ n ih =>
    intro l hnd hsub ha
    cases l with
    | nil => simp at ha
    | cons x t =>
      simp only [List.drop_succ_cons] at ha ⊢
      rcases List.sublist_cons_iff.mp hsub with h | ⟨r, hr, hrt⟩
      · exact ih t (List.nodup_cons.mp hnd).2 h ha
      · exfalso
        have hax : a = x := by
          have := congrArg (fun s => s.head?) hr
          simpa using this
        subst hax
        exact (List.nodup_cons.mp hnd).1 (List.mem_of_mem_drop ha)

/-- Claim C1 counterexample: two identical stored vectors receive equal
similarity scores (they do under every per-vector similarity, the float
cosine included), yet `search` returns the later-inserted entry first:
`topIndices` is `[1, 0]`, not `[0, 1]`, so the tied entries come back in
reverse insertion order.  The claim as stated — lower index first — is
false on this input. -/
theorem search_tie_counterexample :
    similarityScores headSim [1] [[1], [1]] = [1, 1]
    ∧ VectorStore.topIndices (⟨[[1], [1]], [10, 20]⟩ : VectorStore Nat)
        headSim [1] 2 = [1, 0]
    ∧ VectorStore.search (⟨[[1], [1]], [10, 20]⟩ : VectorStore Nat)
        headSim [1] 2 = [20, 10] := by
  refine ⟨by decide, by decide, by decide⟩

/-- Claim C1 (amended): whenever two indexed entries `i < j` tie — equal
similarity scores — and both are returned, `search` returns them in
*reverse* insertion order, the higher index strictly first ( `[j, i]` is a
sublist of the duplicate-free ranking `topIndices`, and `search` maps that
ranking positionally onto chunks).  The ranking is still deterministic:
`np.argsort` (stable ascending on these inputs) places `i` before `j`, the
`[-top_k:]` suffix keeps relative order, and the final `[::-1]` reversal
flips it. -/
theorem search_tie_higher_index_first {α : Type} [Inhabited α]
    (s : VectorStore α) (sim : List ℚ → List ℚ → ℚ) (query : List ℚ)
    (top_k : Nat) (i j : Nat) (hij : i < j)
    (htie : (similarityScores sim query s.embeddings).getD i 0
      = (similarityScores sim query s.embeddings).getD j 0)
    (hi : i ∈ s.topIndices sim query top_k)
    (hj : j ∈ s.topIndices sim query top_k) :
    [j, i].Sublist (s.topIndices sim query top_k)
    ∧ (s.embeddings.length ≠ 0 →
      s.search sim query top_k
        = (s.topIndices sim query top_k).map
            (fun x => s.chunks.getD x default)) := by
  constructor
  · have hjn : j < s.embeddings.length := topIndices_lt s sim query top_k j hj
    have hpair : [i, j].Sublist
        (argsort (similarityScores sim query s.embeddings)) := by
      apply List.sublist_insertionSort
      · exact List.pairwise_cons.mpr
          ⟨fun b hb => by
            simp only [List.mem_singleton] at hb
            subst hb
            exact le_of_eq htie,
           List.pairwise_singleton _ _⟩
      · apply pair_sublist_range i j _ hij
        simpa [similarityScores] using hjn
    have hnd : (argsort (similarityScores sim query s.embeddings)).Nodup := by
      simp only [argsort]
      exact (List.perm_insertionSort _ _).symm.nodup (List.nodup_range _)
    have hi' : i ∈ sliceLast
        (argsort (similarityScores sim query s.embeddings)) top_k := by
      simpa only [VectorStore.topIndices, List.mem_reverse] using hi
    have hslice : [i, j].Sublist (sliceLast
        (argsort (similarityScores sim query s.embeddings)) top_k) := by
      by_cases hk : top_k = 0
      · simpa [sliceLast, hk] using hpair
      · have hi'' : i ∈ (argsort (similarityScores sim query
            s.embeddings)).drop
            ((argsort (similarityScores sim query s.embeddings)).length
              - top_k) := by
          simpa [sliceLast, hk] using hi'
        have := pair_sublist_drop _ _ hnd hpair hi''
        simpa [sliceLast, hk] using this
    have := hslice.reverse
    simpa [VectorStore.topIndices] using this
  · intro hne
    simp [VectorStore.search, hne]

/-- Witness for `search_tie_higher_index_first` on the concrete tied store:
indices 0 and 1 tie, and the ranking returns them as `[1, 0]`. -/
theorem search_tie_higher_index_first_witness :
    [1, 0].Sublist (VectorStore.topIndices
      (⟨[[1], [1]], [30, 40]⟩ : VectorStore Nat) headSim [1] 2) :=
  (search_tie_higher_index_first
    (⟨[[1], [1]], [30, 40]⟩ : VectorStore Nat) headSim [1] 2 0 1
    (by decide) (by decide) (by decide) (by decide)).1

end ZkRag
